import Mathlib

/-!
Verification of the reaction-scoreboard engine of `src/db/backendDb.ts`
(class `Scoreboard`).

The TypeScript source is shallowly embedded: the keyed room table
(`this.byRoom` / `this.byRoomCached`, JS objects keyed by room id) becomes an
insertion-ordered association list; the in-place message mutations become pure
state transformers; external collaborators (the Matrix client's
`getEvent`/`getUserProfile`) become `Option`-valued parameters; the JS
`Array.prototype.sort` (guaranteed stable since ES2019) with comparator
`(a, b) => b.upvotes - a.upvotes` becomes a stable insertion sort on the score
in descending order.
-/

namespace ConferenceBot

/-- `RoomMessage` from `backendDb.ts`: one tracked message with its active
up/down vote reaction-event ids. -/
structure RoomMessage where
  eventId : String
  text : String
  senderId : String
  senderName : Option String
  senderHttpUrl : Option String
  activeUpvoteIds : List String
  activeDownvoteIds : List String
deriving DecidableEq, Repr

/-- `CachedMessage` from `backendDb.ts`: one entry of the derived ranking
view.  `upvotes` is the signed score `|activeUpvoteIds| - |activeDownvoteIds|`. -/
structure CachedMessage where
  permalink : String
  text : String
  upvotes : Int
  senderId : String
  senderName : Option String
  senderAvatarHttpUrl : Option String
deriving DecidableEq, Repr

/-- `RoomScoreboard` from `backendDb.ts`: the authoritative per-room state. -/
structure RoomScoreboard where
  qaStartTime : Option Int
  messages : List RoomMessage
deriving DecidableEq, Repr

/-- `CachedScoreboard` from `backendDb.ts`: the derived, cached ranking view. -/
structure CachedScoreboard where
  qaStartTime : Option Int
  ordered : List CachedMessage
deriving DecidableEq, Repr

/-- JS-object lookup `m[k]` on an insertion-ordered keyed table. -/
def getKey {α : Type} : List (String × α) → String → Option α
  | [], _ => none
  | p :: rest, k => if p.1 == k then some p.2 else getKey rest k

/-- JS-object assignment `m[k] = v`: updates the value in place when the key is
present (keys of a JS object are unique), appends at the end otherwise. -/
def setKey {α : Type} : List (String × α) → String → α → List (String × α)
  | [], k, v => [(k, v)]
  | p :: rest, k, v => if p.1 == k then (k, v) :: rest else p :: setKey rest k v

/-- The whole in-memory state of the `Scoreboard` engine: `this.byRoom` and
`this.byRoomCached`. -/
structure ScoreboardState where
  byRoom : List (String × RoomScoreboard)
  byRoomCached : List (String × CachedScoreboard)
deriving DecidableEq, Repr

/-- The engine's initial state: both tables start empty. -/
def emptyState : ScoreboardState := ⟨[], []⟩

/-- The fresh `RoomScoreboard` created by the engine for an untracked room:
`{ qaStartTime: undefined, messages: [] }`. -/
def emptyRoom : RoomScoreboard := ⟨none, []⟩

/-- Models the external `Permalinks.forEvent(roomId, eventId, [domain])` of the
matrix-bot-sdk collaborator (a deterministic matrix.to link builder). -/
def permalinkForEvent (roomId eventId domain : String) : String :=
  "https://matrix.to/#/" ++ roomId ++ "/" ++ eventId ++ "?via=" ++ domain

/-- The projection of one tracked message to a display record, as built in the
loop of `calculateRoom`. -/
def projectMessage (roomId domain : String) (message : RoomMessage) : CachedMessage :=
  { permalink := permalinkForEvent roomId message.eventId domain
    senderAvatarHttpUrl := message.senderHttpUrl
    senderName := message.senderName
    senderId := message.senderId
    text := message.text
    upvotes := (message.activeUpvoteIds.length : Int) - (message.activeDownvoteIds.length : Int) }

/-- Insert `c` into a score-descending list, after every element whose score is
strictly greater and before the first element whose score is `≤ c.upvotes`. -/
def insertScored (c : CachedMessage) : List CachedMessage → List CachedMessage
  | [] => [c]
  | x :: xs => if c.upvotes < x.upvotes then x :: insertScored c xs else c :: x :: xs

/-- `messages.sort((a, b) => b.upvotes - a.upvotes)`: JS `Array.prototype.sort`
is stable (ES2019), and a stable sort by score descending is extensionally
determined, so it is embedded as a stable insertion sort. -/
def sortByScoreDesc : List CachedMessage → List CachedMessage
  | [] => []
  | x :: xs => insertScored x (sortByScoreDesc xs)

/-- `Scoreboard.calculateRoom`, as a pure function of one room's state:
project every tracked message, then sort by score descending (stable). -/
def calculateRoom (roomId domain : String) (sb : RoomScoreboard) : CachedScoreboard :=
  { qaStartTime := sb.qaStartTime
    ordered := sortByScoreDesc (sb.messages.map (projectMessage roomId domain)) }

/-- The common tail of every mutating operation: store the new room state in
`byRoom` and run `calculateRoom`, which stores the recomputed view in
`byRoomCached` (the code writes `this.byRoom[roomId]` and then
`calculateRoom` reads that same entry back). -/
def setRoomAndCalc (domain : String) (st : ScoreboardState) (roomId : String)
    (sb : RoomScoreboard) : ScoreboardState :=
  { byRoom := setKey st.byRoom roomId sb
    byRoomCached := setKey st.byRoomCached roomId (calculateRoom roomId domain sb) }

/-- The room state the mutating operations read: `this.byRoom[roomId]`, with
the empty room substituted when the operation creates the entry first. -/
def roomOf (st : ScoreboardState) (roomId : String) : RoomScoreboard :=
  (getKey st.byRoom roomId).getD emptyRoom

/-- The `if (!(roomId in this.byRoom)) { this.byRoom[roomId] = {...} }` step of
`showQACountdown` and the analogous `if (!scoreboard)` step of
`tryAddReaction`: create an empty room entry when absent. -/
def ensureRoom (st : ScoreboardState) (roomId : String) : ScoreboardState :=
  if (getKey st.byRoom roomId).isSome then st
  else { st with byRoom := setKey st.byRoom roomId emptyRoom }

/-- `Scoreboard.resetScoreboard` (in-memory part): replace the room state with
an empty one and recompute the view. -/
def resetScoreboard (domain : String) (st : ScoreboardState) (roomId : String) :
    ScoreboardState :=
  setRoomAndCalc domain st roomId emptyRoom

/-- `Scoreboard.showQACountdown` (in-memory part): create the room if absent,
set `qaStartTime`, recompute the view. -/
def showQACountdown (domain : String) (st : ScoreboardState) (roomId : String)
    (qaStartTime : Int) : ScoreboardState :=
  let st1 := ensureRoom st roomId
  let sb := roomOf st1 roomId
  setRoomAndCalc domain st1 roomId { sb with qaStartTime := some qaStartTime }

/-- A Unicode variation selector (U+FE00 – U+FE0F). -/
def isVariationSelector (c : Char) : Bool :=
  0xFE00 ≤ c.toNat && c.toNat ≤ 0xFE0F

/-- Strip trailing Unicode variation selectors from a string. -/
def stripVariation (s : String) : String :=
  ⟨(s.toList.reverse.dropWhile isVariationSelector).reverse⟩

/-- Modelled from the spec: `isEmojiVariant` is imported from `src/utils.ts`,
which is not part of the provided sources; the spec describes the check as
matching a vote emoji "under lenient Unicode-variant equality (not exact
string match)".  It is modelled as equality after stripping trailing Unicode
variation selectors from the candidate. -/
def isEmojiVariant (base value : String) : Bool :=
  stripVariation value == base

/-- The thumbs-up vote emoji recognized by `tryAddReaction`. -/
def thumbsUp : String := "👍"

/-- The thumbs-down vote emoji recognized by `tryAddReaction`. -/
def thumbsDown : String := "👎"

/-- `isEmojiVariant(base, relation['key'])` where the key may be absent or of a
non-string type (in which case the JS check is falsy). -/
def keyIsVariant (base : String) : Option String → Bool
  | none => false
  | some k => isEmojiVariant base k

/-- The `content['m.relates_to']` object of a reaction event.  Each field is
`none` when it is absent or not a string (the code checks
`rel_type !== 'm.annotation'` and `typeof event_id !== 'string'`). -/
structure Relation where
  rel_type : Option String
  key : Option String
  event_id : Option String
deriving DecidableEq, Repr

/-- An inbound `m.reaction` event: its own event id and its (possibly absent)
`m.relates_to` relation. -/
structure ReactionEvent where
  event_id : String
  relation : Option Relation
deriving DecidableEq, Repr

/-- The classification stage of `tryAddReaction` that runs before the lock is
acquired: requires a relation, `rel_type === 'm.annotation'`, a key that is a
variant of one of the two vote emoji, and a string-typed target `event_id`.
Returns `(isUpvote, target)` on acceptance. -/
def classifyReaction (ev : ReactionEvent) : Option (Bool × String) :=
  match ev.relation with
  | none => none
  | some rel =>
    if rel.rel_type = some "m.annotation" then
      let isUp := keyIsVariant thumbsUp rel.key
      let isDown := keyIsVariant thumbsDown rel.key
      if isUp || isDown then
        match rel.event_id with
        | some target => some (isUp, target)
        | none => none
      else none
    else none

/-- `(isUpvote ? message.activeUpvoteIds : message.activeDownvoteIds).push(id)`. -/
def pushVote (isUp : Bool) (voteId : String) (m : RoomMessage) : RoomMessage :=
  if isUp then { m with activeUpvoteIds := m.activeUpvoteIds ++ [voteId] }
  else { m with activeDownvoteIds := m.activeDownvoteIds ++ [voteId] }

/-- Apply `f` to the first element satisfying `p` (the JS code obtains that
element with `find` and mutates it in place). -/
def updateFirst {α : Type} (p : α → Bool) (f : α → α) : List α → List α
  | [] => []
  | x :: xs => if p x then f x :: xs else x :: updateFirst p f xs

/-- Remove the first element satisfying `p` (the JS code obtains it with
`find`, then `indexOf` + `splice(idx, 1)`). -/
def eraseFirstP {α : Type} (p : α → Bool) : List α → List α
  | [] => []
  | x :: xs => if p x then xs else x :: eraseFirstP p xs

/-- The result of `this.client.getEvent(roomId, target)`: the fields of the
reacted-to event that `tryAddReaction` inspects.  `msgtype`/`body` are `none`
when absent or not of string type. -/
structure TargetEvent where
  type : String
  msgtype : Option String
  body : Option String
  sender : String
deriving DecidableEq, Repr

/-- The result of `this.client.getUserProfile(senderId)`. -/
structure Profile where
  displayname : Option String
  avatar_url : Option String
deriving DecidableEq, Repr

/-- Models the avatar thumbnail URL built from an `mxc://` avatar url:
`parts = url.slice('mxc://'.length).split('/')`, then a template string.
`encodeURIComponent` (an external JS builtin) is modelled as the identity, and
JS indexing past the end of the split (which yields `undefined`, rendered as
the text "undefined" by the template string) is modelled with `getD`. -/
def thumbnailUrl (homeserverUrl u : String) : String :=
  let parts := (u.drop 6).splitOn "/"
  homeserverUrl ++ "/_matrix/media/r0/thumbnail/" ++ parts.getD 0 "undefined"
    ++ "/" ++ parts.getD 1 "undefined" ++ "?method=crop&width=64&height=64"

/-- The profile enrichment step of `tryAddReaction` for a newly tracked
message.  `profile = none` models the fetch failing: the exception is caught
and ignored, leaving the optional fields unset.  A truthy (non-empty)
`displayname` sets `senderName`; an `avatar_url` starting with `mxc://` sets
`senderHttpUrl`. -/
def applyProfile (profile : Option Profile) (homeserverUrl : String)
    (m : RoomMessage) : RoomMessage :=
  match profile with
  | none => m
  | some p =>
    let m1 := match p.displayname with
      | some d => if d = "" then m else { m with senderName := some d }
      | none => m
    match p.avatar_url with
    | some u =>
      if u.startsWith "mxc://" then
        { m1 with senderHttpUrl := some (thumbnailUrl homeserverUrl u) }
      else m1
    | none => m1

/-- `Scoreboard.tryAddReaction` (in-memory part).  `auditoriums` is the room-id
list of `conference.storedAuditoriums`; `fetchEvent` is the outcome of
`client.getEvent` for the reaction's target (following the spec's stated
policy, `none` covers both a failed fetch and a missing event); `fetchProfile`
is the outcome of `client.getUserProfile`.  Drop paths return before
`calculateRoom` runs, so the cached view is untouched on them — but the empty
room entry created by the `if (!scoreboard)` step persists. -/
def tryAddReaction (domain homeserverUrl : String) (auditoriums : List String)
    (fetchEvent : Option TargetEvent) (fetchProfile : Option Profile)
    (st : ScoreboardState) (roomId : String) (ev : ReactionEvent) :
    ScoreboardState :=
  if auditoriums.contains roomId then
    match classifyReaction ev with
    | none => st
    | some (isUp, target) =>
      let st1 := ensureRoom st roomId
      let sb := roomOf st1 roomId
      if sb.messages.any (fun m => m.eventId == target) then
        let msgs := updateFirst (fun m => m.eventId == target)
          (pushVote isUp ev.event_id) sb.messages
        setRoomAndCalc domain st1 roomId { sb with messages := msgs }
      else
        match fetchEvent with
        | none => st1
        | some tev =>
          if tev.type = "m.room.message" then
            if tev.msgtype = some "m.text" then
              match tev.body with
              | none => st1
              | some body =>
                let m0 : RoomMessage :=
                  pushVote isUp ev.event_id
                    { eventId := target, text := body, senderId := tev.sender
                      senderName := none, senderHttpUrl := none
                      activeUpvoteIds := [], activeDownvoteIds := [] }
                let m := applyProfile fetchProfile homeserverUrl m0
                setRoomAndCalc domain st1 roomId
                  { sb with messages := sb.messages ++ [m] }
            else st1
          else st1
  else st

/-- `Scoreboard.tryRemoveReaction` (in-memory part).  `redacts` is
`event['redacts']`; `none` models an absent or non-string field, and the empty
string is falsy in the `if (!event['redacts'])` guard. -/
def tryRemoveReaction (domain : String) (auditoriums : List String)
    (st : ScoreboardState) (roomId : String) (redacts : Option String) :
    ScoreboardState :=
  if auditoriums.contains roomId then
    match redacts with
    | none => st
    | some rid =>
      if rid = "" then st
      else
        match getKey st.byRoom roomId with
        | none => st
        | some sb =>
          if sb.messages.any (fun m => m.activeUpvoteIds.contains rid)
              || sb.messages.any (fun m => m.activeDownvoteIds.contains rid) then
            let msgs1 := updateFirst (fun m => m.activeUpvoteIds.contains rid)
              (fun m => { m with activeUpvoteIds := m.activeUpvoteIds.erase rid })
              sb.messages
            let msgs2 := updateFirst (fun m => m.activeDownvoteIds.contains rid)
              (fun m => { m with activeDownvoteIds := m.activeDownvoteIds.erase rid })
              msgs1
            setRoomAndCalc domain st roomId { sb with messages := msgs2 }
          else st
  else st

/-- `Scoreboard.tryRemoveMessage` (in-memory part): delete the first tracked
message whose id is the redacted id, if any. -/
def tryRemoveMessage (domain : String) (auditoriums : List String)
    (st : ScoreboardState) (roomId : String) (redacts : Option String) :
    ScoreboardState :=
  if auditoriums.contains roomId then
    match redacts with
    | none => st
    | some rid =>
      if rid = "" then st
      else
        match getKey st.byRoom roomId with
        | none => st
        | some sb =>
          if sb.messages.any (fun m => m.eventId == rid) then
            setRoomAndCalc domain st roomId
              { sb with messages := eraseFirstP (fun m => m.eventId == rid) sb.messages }
          else st
  else st

/-- The persisted snapshot document `{ version, rooms }` (`ScoreboardJson` in
`backendDb.ts`; at runtime `rooms` is the keyed `byRoom` table, serialized with
its insertion order). -/
structure ScoreboardJson where
  version : Int
  rooms : List (String × RoomScoreboard)
deriving DecidableEq, Repr

/-- `Scoreboard.JSON_FORMAT_VERSION`. -/
def jsonFormatVersion : Int := 1

/-- The outcome of reading and parsing the snapshot file in `load()`:
the file may be missing (`ENOENT`), unreadable (any other read error),
syntactically invalid JSON (`SyntaxError`), or a well-formed document.
`JSON.parse`/`JSON.stringify` are external builtins; a successfully parsed
document is modelled by its structured value. -/
inductive LoadFile where
  | missing
  | unreadable
  | malformed
  | wellFormed (json : ScoreboardJson)
deriving DecidableEq, Repr

/-- The warnings `load()` emits through `LogService.warn`. -/
inductive LogEntry where
  | warnInvalidJson
  | warnLoadFailed
  | warnBadVersion (v : Int)
deriving DecidableEq, Repr

/-- The loop body of `load()`: `this.byRoom[roomId] = json.rooms[roomId]`
followed by `calculateRoom(roomId)`, over the snapshot's rooms in order. -/
def loadRooms (domain : String) (rooms : List (String × RoomScoreboard))
    (st : ScoreboardState) : ScoreboardState :=
  rooms.foldl (fun acc p => setRoomAndCalc domain acc p.1 p.2) st

/-- `Scoreboard.load()`: a missing file is silently "no prior state"; a parse
failure, any other read error, or a version mismatch is logged and likewise
leaves the state untouched; a well-formed current-version snapshot replaces
each listed room's state and recomputes its view. -/
def load (domain : String) (file : LoadFile) (st : ScoreboardState) :
    ScoreboardState × List LogEntry :=
  match file with
  | .missing => (st, [])
  | .malformed => (st, [.warnInvalidJson])
  | .unreadable => (st, [.warnLoadFailed])
  | .wellFormed json =>
    if json.version = jsonFormatVersion then (loadRooms domain json.rooms st, [])
    else (st, [.warnBadVersion json.version])

/-- The snapshot document `save()` serializes: `{ version: JSON_FORMAT_VERSION,
rooms: this.byRoom }` — the entire keyed table, every room. -/
def encodeSnapshot (st : ScoreboardState) : ScoreboardJson :=
  ⟨jsonFormatVersion, st.byRoom⟩

/-- The content of one file on disk.  `torn` stands for any incomplete
document left behind by an interrupted write. -/
inductive FileData where
  | absent
  | torn
  | complete (json : ScoreboardJson)
deriving DecidableEq, Repr

/-- The two paths `save()` touches: the canonical snapshot path and the
temporary path `this.path + '.tmp'`. -/
structure Fs where
  canonical : FileData
  temp : FileData
deriving DecidableEq, Repr

/-- Every filesystem state reachable while `save()` runs, in order: before the
write; with the temporary file partially written (a crash point inside
`fs.writeFile`); with the temporary file complete but not yet renamed; and
after the atomic `fs.rename` of the temporary file onto the canonical path. -/
def saveSteps (fs : Fs) (st : ScoreboardState) : List Fs :=
  [ fs,
    { fs with temp := FileData.torn },
    { fs with temp := FileData.complete (encodeSnapshot st) },
    { canonical := FileData.complete (encodeSnapshot st), temp := FileData.absent } ]

/-- The filesystem state after `save()` completes. -/
def saveResult (st : ScoreboardState) : Fs :=
  { canonical := FileData.complete (encodeSnapshot st), temp := FileData.absent }

/-- Reading the canonical path back, as `load()` does: an absent file is
`ENOENT`, a torn document fails `JSON.parse`, a complete document parses to
its value. -/
def parseFile : FileData → LoadFile
  | .absent => .missing
  | .torn => .malformed
  | .complete j => .wellFormed j

/-- The atomic actions the engine performs against the shared lock
(`AwaitLock`), the room tables and the snapshot file, in the order the code
runs them. -/
inductive EngineAction where
  | acquire
  | release
  | mutateRoom
  | recompute
  | persistWrite
deriving DecidableEq, Repr

/-- One `lock.acquireAsync() … finally lock.release()` bracket. -/
def criticalSection (body : List EngineAction) : List EngineAction :=
  EngineAction.acquire :: body ++ [EngineAction.release]

/-- The action trace of `save()`: it takes the lock itself and writes the
snapshot while holding it. -/
def saveTrace : List EngineAction :=
  criticalSection [EngineAction.persistWrite]

/-- The action trace of a successful mutating operation as the code is
written: acquire; mutate the room state; `calculateRoom`; release — and only
then call `save()`, which re-acquires the same lock for the write.  All five
mutating operations (`resetScoreboard`, `showQACountdown`, `tryAddReaction`,
`tryRemoveReaction`, `tryRemoveMessage`) share this shape. -/
def mutatingOpTrace : List EngineAction :=
  criticalSection [EngineAction.mutateRoom, EngineAction.recompute] ++ saveTrace

/-- The trace of `resetScoreboard`. -/
def resetScoreboardTrace : List EngineAction := mutatingOpTrace

/-- The trace of `showQACountdown`. -/
def showQACountdownTrace : List EngineAction := mutatingOpTrace

/-- The trace of `tryAddReaction` on its successful path. -/
def tryAddReactionTrace : List EngineAction := mutatingOpTrace

/-- The trace of `tryRemoveReaction` on its successful path. -/
def tryRemoveReactionTrace : List EngineAction := mutatingOpTrace

/-- The trace of `tryRemoveMessage` on its successful path. -/
def tryRemoveMessageTrace : List EngineAction := mutatingOpTrace

/-- The trace of the reaction handler for an event its classification rejects:
nothing happens, in particular the lock is never acquired. -/
def addReactionTrace (ev : ReactionEvent) : List EngineAction :=
  match classifyReaction ev with
  | none => []
  | some _ => tryAddReactionTrace

/-- Decides whether a trace performs its snapshot persistence while still
holding the lock acquired for the room mutation: after the first `mutateRoom`
there must be a `persistWrite` with no `release` in between. -/
def persistUnderSameLock (tr : List EngineAction) : Bool :=
  let afterMutate := (tr.dropWhile (fun a => a != EngineAction.mutateRoom)).drop 1
  afterMutate.contains EngineAction.persistWrite &&
    (afterMutate.takeWhile (fun a => a != EngineAction.persistWrite)).all
      (fun a => a != EngineAction.release)

/-- The semantics of the single engine lock over an interleaved run of several
threads (thread id × action): an action other than `acquire` requires the lock
to be held by the same thread, `acquire` requires it to be free, and `release`
frees it. -/
def lockValid : Option Nat → List (Nat × EngineAction) → Bool
  | _, [] => true
  | none, (t, a) :: rest => a == EngineAction.acquire && lockValid (some t) rest
  | some h, (t, a) :: rest =>
    a != EngineAction.acquire && h == t &&
      lockValid (if a == EngineAction.release then none else some h) rest

/-- The actions of one thread within an interleaved run. -/
def projThread (t : Nat) (run : List (Nat × EngineAction)) : List EngineAction :=
  (run.filter (fun p => p.1 == t)).map (fun p => p.2)

/-- A concrete lock-respecting interleaving of two mutating operations in
which thread 1's whole mutation executes between thread 0's mutation and
thread 0's persist. -/
def interleavedRun : List (Nat × EngineAction) :=
  [ (0, EngineAction.acquire), (0, EngineAction.mutateRoom),
    (0, EngineAction.recompute), (0, EngineAction.release),
    (1, EngineAction.acquire), (1, EngineAction.mutateRoom),
    (1, EngineAction.recompute), (1, EngineAction.release),
    (0, EngineAction.acquire), (0, EngineAction.persistWrite),
    (0, EngineAction.release),
    (1, EngineAction.acquire), (1, EngineAction.persistWrite),
    (1, EngineAction.release) ]

/-- The per-message invariant of the data model: no reaction id occurs in both
the upvote set and the downvote set. -/
def MsgDisjoint (m : RoomMessage) : Prop :=
  ∀ voteId, voteId ∈ m.activeUpvoteIds → voteId ∉ m.activeDownvoteIds

/-- Every tracked message of a room satisfies `MsgDisjoint`. -/
def RoomDisjoint (sb : RoomScoreboard) : Prop :=
  ∀ m ∈ sb.messages, MsgDisjoint m

/-- The engine invariant: every tracked room's messages have disjoint vote
sets, and every cached view is `calculateRoom` of the current state of its
room (so every displayed score is `|activeUpvoteIds| - |activeDownvoteIds|`
of the corresponding tracked message). -/
def StateInv (domain : String) (st : ScoreboardState) : Prop :=
  (∀ rid sb, getKey st.byRoom rid = some sb → RoomDisjoint sb) ∧
  (∀ rid cv, getKey st.byRoomCached rid = some cv →
    ∃ sb, getKey st.byRoom rid = some sb ∧ cv = calculateRoom rid domain sb)

/-- The transport guarantee on event ids: the reaction event id being
processed does not already occur in any vote set of the room. -/
def FreshId (st : ScoreboardState) (roomId voteId : String) : Prop :=
  ∀ sb, getKey st.byRoom roomId = some sb →
    ∀ m ∈ sb.messages, voteId ∉ m.activeUpvoteIds ∧ voteId ∉ m.activeDownvoteIds

/-- A snapshot file whose rooms all satisfy the vote-set disjointness
invariant (trivially true for non-document outcomes). -/
def FileDisjoint : LoadFile → Prop
  | .wellFormed j => ∀ p ∈ j.rooms, RoomDisjoint p.2
  | _ => True

theorem insertScored_perm (c : CachedMessage) (l : List CachedMessage) :
    List.Perm (insertScored c l) (c :: l) := by
  induction l with
  | nil => simp [insertScored]
  | cons x xs ih =>
    by_cases h : c.upvotes < x.upvotes
    · simp only [insertScored, if_pos h]
      exact (ih.cons x).trans (List.Perm.swap c x xs)
    · simp [insertScored, if_neg h]

theorem sortByScoreDesc_perm (l : List CachedMessage) :
    List.Perm (sortByScoreDesc l) l := by
  induction l with
  | nil => simp [sortByScoreDesc]
  | cons x xs ih =>
    exact (insertScored_perm x (sortByScoreDesc xs)).trans (ih.cons x)

theorem mem_insertScored {c y : CachedMessage} {l : List CachedMessage} :
    y ∈ insertScored c l ↔ y = c ∨ y ∈ l := by
  rw [(insertScored_perm c l).mem_iff]
  simp

theorem insertScored_sorted {c : CachedMessage} {l : List CachedMessage}
    (h : l.Pairwise (fun a b => b.upvotes ≤ a.upvotes)) :
    (insertScored c l).Pairwise (fun a b => b.upvotes ≤ a.upvotes) := by
  induction l with
  | nil => simp [insertScored]
  | cons x xs ih =>
    rcases List.pairwise_cons.mp h with ⟨hx, hxs⟩
    by_cases hlt : c.upvotes < x.upvotes
    · simp only [insertScored, if_pos hlt]
      refine List.pairwise_cons.mpr ⟨?_, ih hxs⟩
      intro y hy
      rcases mem_insertScored.mp hy with rfl | hy
      · exact le_of_lt hlt
      · exact hx y hy
    · simp only [insertScored, if_neg hlt]
      refine List.pairwise_cons.mpr ⟨?_, h⟩
      intro y hy
      rcases List.mem_cons.mp hy with rfl | hy
      · exact not_lt.mp hlt
      · exact le_trans (hx y hy) (not_lt.mp hlt)

theorem sortByScoreDesc_sorted (l : List CachedMessage) :
    (sortByScoreDesc l).Pairwise (fun a b => b.upvotes ≤ a.upvotes) := by
  induction l with
  | nil => simp [sortByScoreDesc]
  | cons x xs ih => exact insertScored_sorted ih

theorem filter_insertScored (k : Int) (c : CachedMessage) (l : List CachedMessage) :
    (insertScored c l).filter (fun a => a.upvotes == k)
      = if c.upvotes == k then c :: l.filter (fun a => a.upvotes == k)
        else l.filter (fun a => a.upvotes == k) := by
  induction l with
  | nil => by_cases hc : c.upvotes = k <;> simp [insertScored, hc]
  | cons x xs ih =>
    by_cases hlt : c.upvotes < x.upvotes
    · simp only [insertScored, if_pos hlt, List.filter_cons]
      by_cases hx : x.upvotes = k
      · have hc : ¬ c.upvotes = k := by omega
        simp [hx, hc, ih]
      · simp [hx, ih]
    · simp only [insertScored, if_neg hlt, List.filter_cons]

theorem filter_sortByScoreDesc (k : Int) (l : List CachedMessage) :
    (sortByScoreDesc l).filter (fun a => a.upvotes == k)
      = l.filter (fun a => a.upvotes == k) := by
  induction l with
  | nil => simp [sortByScoreDesc]
  | cons x xs ih =>
    simp only [sortByScoreDesc, filter_insertScored, List.filter_cons, ih]

theorem getKey_setKey_self {α : Type} (m : List (String × α)) (k : String) (v : α) :
    getKey (setKey m k v) k = some v := by
  induction m with
  | nil => simp [getKey, setKey]
  | cons p rest ih =>
    by_cases h : p.1 = k
    · simp [setKey, getKey, h]
    · simp [setKey, getKey, h, ih]

theorem getKey_setKey_ne {α : Type} (m : List (String × α)) {k k' : String}
    (v : α) (h : k' ≠ k) : getKey (setKey m k v) k' = getKey m k' := by
  induction m with
  | nil => simp [getKey, setKey, Ne.symm h]
  | cons p rest ih =>
    by_cases hp : p.1 = k
    · subst hp
      simp [setKey, getKey, Ne.symm h]
    · by_cases hpk : p.1 = k'
      · simp [setKey, getKey, hp, hpk, h]
      · simp [setKey, getKey, hp, hpk, h, ih]

theorem setKey_absent {α : Type} (m : List (String × α)) {k : String} (v : α)
    (h : getKey m k = none) : setKey m k v = m ++ [(k, v)] := by
  induction m with
  | nil => simp [setKey]
  | cons p rest ih =>
    by_cases hp : p.1 = k
    · exfalso
      simp [getKey, hp] at h
    · simp only [getKey, beq_iff_eq, if_neg hp] at h
      simp [setKey, hp, ih h]

/-- C1: For every room state, the ranking view computed by `calculateRoom`
lists exactly the tracked messages projected to display records (the `ordered`
list is a permutation of the projection of `messages`), sorted by score
descending, and for every score value the records carrying that score appear
in exactly the room's tracking order — the sort is stable, so two messages
with equal scores are listed with the earlier-tracked one first. -/
theorem C1_ranking_sorted_stable (roomId domain : String) (sb : RoomScoreboard) :
    (calculateRoom roomId domain sb).ordered.Pairwise (fun a b => b.upvotes ≤ a.upvotes) ∧
    List.Perm (calculateRoom roomId domain sb).ordered
      (sb.messages.map (projectMessage roomId domain)) ∧
    ∀ k : Int, (calculateRoom roomId domain sb).ordered.filter (fun c => c.upvotes == k)
      = (sb.messages.map (projectMessage roomId domain)).filter (fun c => c.upvotes == k) :=
  ⟨sortByScoreDesc_sorted _, sortByScoreDesc_perm _, fun k => filter_sortByScoreDesc k _⟩

theorem mem_updateFirst {α : Type} {p : α → Bool} {f : α → α} {l : List α} {y : α}
    (hy : y ∈ updateFirst p f l) : y ∈ l ∨ ∃ x, x ∈ l ∧ p x = true ∧ y = f x := by
  induction l with
  | nil => simp [updateFirst] at hy
  | cons x xs ih =>
    by_cases hp : p x = true
    · simp only [updateFirst, hp, if_true] at hy
      rcases List.mem_cons.mp hy with rfl | hy
      · exact Or.inr ⟨x, List.mem_cons_self x xs, hp, rfl⟩
      · exact Or.inl (List.mem_cons_of_mem x hy)
    · simp only [updateFirst, hp, if_false] at hy
      rcases List.mem_cons.mp hy with rfl | hy
      · exact Or.inl (List.mem_cons_self y xs)
      · rcases ih hy with h | ⟨z, hz, hpz, rfl⟩
        · exact Or.inl (List.mem_cons_of_mem x h)
        · exact Or.inr ⟨z, List.mem_cons_of_mem x hz, hpz, rfl⟩

theorem mem_eraseFirstP {α : Type} {p : α → Bool} {l : List α} {y : α}
    (hy : y ∈ eraseFirstP p l) : y ∈ l := by
  induction l with
  | nil => simp [eraseFirstP] at hy
  | cons x xs ih =>
    by_cases hp : p x = true
    · simp only [eraseFirstP, hp, if_true] at hy
      exact List.mem_cons_of_mem x hy
    · simp only [eraseFirstP, hp, if_false] at hy
      rcases List.mem_cons.mp hy with rfl | hy
      · exact List.mem_cons_self y xs
      · exact List.mem_cons_of_mem x (ih hy)

theorem pushVote_disjoint {m : RoomMessage} {voteId : String} {isUp : Bool}
    (hm : MsgDisjoint m) (hu : voteId ∉ m.activeUpvoteIds)
    (hd : voteId ∉ m.activeDownvoteIds) : MsgDisjoint (pushVote isUp voteId m) := by
  cases isUp
  · intro w hw hcon
    simp only [pushVote, Bool.false_eq_true, if_false] at hw hcon
    rcases List.mem_append.mp hcon with hcon | hcon
    · exact hm w hw hcon
    · rcases List.mem_singleton.mp hcon with rfl
      exact hu hw
  · intro w hw hcon
    simp only [pushVote, if_true] at hw hcon
    rcases List.mem_append.mp hw with hw | hw
    · exact hm w hw hcon
    · rcases List.mem_singleton.mp hw with rfl
      exact hd hcon

theorem applyProfile_votes (profile : Option Profile) (hs : String) (m : RoomMessage) :
    (applyProfile profile hs m).activeUpvoteIds = m.activeUpvoteIds ∧
    (applyProfile profile hs m).activeDownvoteIds = m.activeDownvoteIds ∧
    (applyProfile profile hs m).eventId = m.eventId := by
  cases profile with
  | none => exact ⟨rfl, rfl, rfl⟩
  | some p =>
    rcases p with ⟨d, a⟩
    cases d with
    | none =>
      cases a with
      | none => exact ⟨rfl, rfl, rfl⟩
      | some u =>
        simp only [applyProfile]
        split <;> exact ⟨rfl, rfl, rfl⟩
    | some dn =>
      cases a with
      | none =>
        simp only [applyProfile]
        split <;> exact ⟨rfl, rfl, rfl⟩
      | some u =>
        simp only [applyProfile]
        split <;> split <;> exact ⟨rfl, rfl, rfl⟩

theorem msgDisjoint_applyProfile {m : RoomMessage} (profile : Option Profile)
    (hs : String) (hm : MsgDisjoint m) : MsgDisjoint (applyProfile profile hs m) := by
  intro w hw
  rw [(applyProfile_votes profile hs m).1] at hw
  rw [(applyProfile_votes profile hs m).2.1]
  exact hm w hw

theorem msgDisjoint_eraseUp {m : RoomMessage} {rid : String} (hm : MsgDisjoint m) :
    MsgDisjoint { m with activeUpvoteIds := m.activeUpvoteIds.erase rid } := by
  intro w hw
  exact hm w (List.mem_of_mem_erase hw)

theorem msgDisjoint_eraseDown {m : RoomMessage} {rid : String} (hm : MsgDisjoint m) :
    MsgDisjoint { m with activeDownvoteIds := m.activeDownvoteIds.erase rid } := by
  intro w hw hcon
  exact hm w hw (List.mem_of_mem_erase hcon)

theorem roomDisjoint_empty : RoomDisjoint emptyRoom := by
  intro m hm
  simp [emptyRoom] at hm

theorem stateInv_setRoomAndCalc {domain : String} {st : ScoreboardState}
    {roomId : String} {sb : RoomScoreboard} (h : StateInv domain st)
    (hsb : RoomDisjoint sb) : StateInv domain (setRoomAndCalc domain st roomId sb) := by
  obtain ⟨hdisj, hcoh⟩ := h
  constructor
  · intro rid sb' hget
    by_cases hr : rid = roomId
    · subst hr
      simp only [setRoomAndCalc] at hget
      rw [getKey_setKey_self] at hget
      cases hget
      exact hsb
    · simp only [setRoomAndCalc] at hget
      rw [getKey_setKey_ne _ _ hr] at hget
      exact hdisj rid sb' hget
  · intro rid cv hget
    by_cases hr : rid = roomId
    · subst hr
      simp only [setRoomAndCalc] at hget ⊢
      rw [getKey_setKey_self] at hget
      cases hget
      exact ⟨sb, by rw [getKey_setKey_self], rfl⟩
    · simp only [setRoomAndCalc] at hget ⊢
      rw [getKey_setKey_ne _ _ hr] at hget
      obtain ⟨sb', hsb', rfl⟩ := hcoh rid cv hget
      exact ⟨sb', by rw [getKey_setKey_ne _ _ hr]; exact hsb', rfl⟩

theorem stateInv_ensureRoom {domain : String} {st : ScoreboardState} {roomId : String}
    (h : StateInv domain st) : StateInv domain (ensureRoom st roomId) := by
  unfold ensureRoom
  by_cases hs : (getKey st.byRoom roomId).isSome
  · simpa [hs] using h
  · obtain ⟨hdisj, hcoh⟩ := h
    simp only [hs, if_false, Bool.false_eq_true]
    constructor
    · intro rid sb hget
      by_cases hr : rid = roomId
      · subst hr
        rw [getKey_setKey_self] at hget
        cases hget
        exact roomDisjoint_empty
      · rw [getKey_setKey_ne _ _ hr] at hget
        exact hdisj _ _ hget
    · intro rid cv hget
      obtain ⟨sb, hsb, rfl⟩ := hcoh rid cv hget
      by_cases hr : rid = roomId
      · subst hr
        rw [hsb] at hs
        simp at hs
      · exact ⟨sb, by rw [getKey_setKey_ne _ _ hr]; exact hsb, rfl⟩

theorem roomDisjoint_roomOf {domain : String} {st : ScoreboardState}
    (h : StateInv domain st) (roomId : String) : RoomDisjoint (roomOf st roomId) := by
  unfold roomOf
  cases hg : getKey st.byRoom roomId with
  | none => simpa using roomDisjoint_empty
  | some sb => simpa using h.1 roomId sb hg

theorem roomOf_ensureRoom (st : ScoreboardState) (roomId : String) :
    roomOf (ensureRoom st roomId) roomId = roomOf st roomId := by
  unfold ensureRoom roomOf
  cases hg : getKey st.byRoom roomId with
  | some sb => simp [hg]
  | none => simp [hg, getKey_setKey_self]

theorem freshId_roomOf {st : ScoreboardState} {roomId voteId : String}
    (h : FreshId st roomId voteId) :
    ∀ m ∈ (roomOf st roomId).messages,
      voteId ∉ m.activeUpvoteIds ∧ voteId ∉ m.activeDownvoteIds := by
  unfold roomOf
  cases hg : getKey st.byRoom roomId with
  | none => simp [emptyRoom]
  | some sb => simpa using h sb hg

theorem stateInv_loadRooms {domain : String} (rooms : List (String × RoomScoreboard))
    {st : ScoreboardState} (h : StateInv domain st)
    (hr : ∀ p ∈ rooms, RoomDisjoint p.2) :
    StateInv domain (loadRooms domain rooms st) := by
  induction rooms generalizing st with
  | nil => simpa [loadRooms] using h
  | cons p rest ih =>
    simp only [loadRooms, List.foldl_cons]
    exact ih (stateInv_setRoomAndCalc h (hr p (List.mem_cons_self p rest)))
      (fun q hq => hr q (List.mem_cons_of_mem p hq))

theorem stateInv_tryAddReaction {domain homeserverUrl : String} {auds : List String}
    {fe : Option TargetEvent} {fp : Option Profile} {st : ScoreboardState}
    {roomId : String} {ev : ReactionEvent} (h : StateInv domain st)
    (hfresh : FreshId st roomId ev.event_id) :
    StateInv domain (tryAddReaction domain homeserverUrl auds fe fp st roomId ev) := by
  have h1 : StateInv domain (ensureRoom st roomId) := stateInv_ensureRoom h
  have hsbd : RoomDisjoint (roomOf (ensureRoom st roomId) roomId) :=
    roomDisjoint_roomOf h1 roomId
  have hfresh' : ∀ m ∈ (roomOf (ensureRoom st roomId) roomId).messages,
      ev.event_id ∉ m.activeUpvoteIds ∧ ev.event_id ∉ m.activeDownvoteIds := by
    rw [roomOf_ensureRoom]
    exact freshId_roomOf hfresh
  simp only [tryAddReaction]
  split
  case isFalse => exact h
  case isTrue =>
    split
    case h_1 => exact h
    case h_2 =>
      split
      case isTrue =>
        refine stateInv_setRoomAndCalc h1 ?_
        intro m hm
        rcases mem_updateFirst hm with hmm | ⟨x, hx, _, rfl⟩
        · exact hsbd m hmm
        · exact pushVote_disjoint (hsbd x hx) (hfresh' x hx).1 (hfresh' x hx).2
      case isFalse =>
        split
        case h_1 => exact h1
        case h_2 =>
          split
          case isTrue =>
            split
            case isTrue =>
              split
              case h_1 => exact h1
              case h_2 =>
                refine stateInv_setRoomAndCalc h1 ?_
                intro m hm
                rcases List.mem_append.mp hm with hmm | hmm
                · exact hsbd m hmm
                · rcases List.mem_singleton.mp hmm with rfl
                  refine msgDisjoint_applyProfile _ _ ?_
                  refine pushVote_disjoint ?_ ?_ ?_
                  · intro w hw
                    simp at hw
                  · simp
                  · simp
            case isFalse => exact h1
          case isFalse => exact h1

theorem stateInv_tryRemoveReaction {domain : String} {auds : List String}
    {st : ScoreboardState} {roomId : String} {red : Option String}
    (h : StateInv domain st) :
    StateInv domain (tryRemoveReaction domain auds st roomId red) := by
  simp only [tryRemoveReaction]
  split
  case isFalse => exact h
  case isTrue =>
    split
    case h_1 => exact h
    case h_2 =>
      split
      case isTrue => exact h
      case isFalse =>
        split
        case h_1 => exact h
        case h_2 sb hg =>
          have hsb : RoomDisjoint sb := h.1 roomId sb hg
          split
          case isTrue =>
            refine stateInv_setRoomAndCalc h ?_
            intro m hm
            rcases mem_updateFirst hm with hm1 | ⟨x, hx, _, rfl⟩
            · rcases mem_updateFirst hm1 with hm2 | ⟨y, hy, _, rfl⟩
              · exact hsb m hm2
              · exact msgDisjoint_eraseUp (hsb y hy)
            · rcases mem_updateFirst hx with hx2 | ⟨y, hy, _, rfl⟩
              · exact msgDisjoint_eraseDown (hsb x hx2)
              · exact msgDisjoint_eraseDown (msgDisjoint_eraseUp (hsb y hy))
          case isFalse => exact h

theorem stateInv_tryRemoveMessage {domain : String} {auds : List String}
    {st : ScoreboardState} {roomId : String} {red : Option String}
    (h : StateInv domain st) :
    StateInv domain (tryRemoveMessage domain auds st roomId red) := by
  simp only [tryRemoveMessage]
  split
  case isFalse => exact h
  case isTrue =>
    split
    case h_1 => exact h
    case h_2 =>
      split
      case isTrue => exact h
      case isFalse =>
        split
        case h_1 => exact h
        case h_2 sb hg =>
          have hsb : RoomDisjoint sb := h.1 roomId sb hg
          split
          case isTrue =>
            refine stateInv_setRoomAndCalc h ?_
            intro m hm
            exact hsb m (mem_eraseFirstP hm)
          case isFalse => exact h

theorem stateInv_load {domain : String} {file : LoadFile} {st : ScoreboardState}
    (h : StateInv domain st) (hf : FileDisjoint file) :
    StateInv domain (load domain file st).1 := by
  cases file with
  | missing => exact h
  | unreadable => exact h
  | malformed => exact h
  | wellFormed json =>
    simp only [load]
    by_cases hv : json.version = jsonFormatVersion
    · rw [if_pos hv]
      exact stateInv_loadRooms json.rooms h hf
    · rw [if_neg hv]
      exact h

theorem stateInv_emptyState (domain : String) : StateInv domain emptyState := by
  constructor
  · intro rid sb hget
    simp [emptyState, getKey] at hget
  · intro rid cv hget
    simp [emptyState, getKey] at hget

/-- C6: Every operation of the engine — `resetScoreboard`, `showQACountdown`,
`tryAddReaction` (under the transport's guarantee that the delivered reaction
event id is fresh), `tryRemoveReaction`, `tryRemoveMessage` and `load` (for a
snapshot whose rooms satisfy the datamodel invariant) — preserves the engine
invariant: vote-id sets of every tracked message are disjoint and every cached
view is `calculateRoom` of its room's current state.  Consequently (last
conjunct) every displayed record's score equals
`|activeUpvoteIds| - |activeDownvoteIds|` of the tracked message it projects,
every tracked message of a room with a cached view is displayed, and no
reaction id is in both vote sets. -/
theorem C6_invariant_preservation (domain homeserverUrl : String) (auds : List String) :
    (∀ st roomId, StateInv domain st →
       StateInv domain (resetScoreboard domain st roomId)) ∧
    (∀ st roomId t, StateInv domain st →
       StateInv domain (showQACountdown domain st roomId t)) ∧
    (∀ st roomId ev fe fp, StateInv domain st → FreshId st roomId ev.event_id →
       StateInv domain (tryAddReaction domain homeserverUrl auds fe fp st roomId ev)) ∧
    (∀ st roomId red, StateInv domain st →
       StateInv domain (tryRemoveReaction domain auds st roomId red)) ∧
    (∀ st roomId red, StateInv domain st →
       StateInv domain (tryRemoveMessage domain auds st roomId red)) ∧
    (∀ st file, StateInv domain st → FileDisjoint file →
       StateInv domain (load domain file st).1) ∧
    (∀ st, StateInv domain st → ∀ rid cv, getKey st.byRoomCached rid = some cv →
       ∃ sb, getKey st.byRoom rid = some sb ∧
         (∀ c ∈ cv.ordered, ∃ m, m ∈ sb.messages ∧ c = projectMessage rid domain m ∧
            c.upvotes = (m.activeUpvoteIds.length : Int) - (m.activeDownvoteIds.length : Int)) ∧
         (∀ m ∈ sb.messages, projectMessage rid domain m ∈ cv.ordered) ∧
         (∀ m ∈ sb.messages, MsgDisjoint m)) := by
  refine ⟨?_, ?_, ?_, ?_, ?_, ?_, ?_⟩
  · intro st roomId h
    exact stateInv_setRoomAndCalc h roomDisjoint_empty
  · intro st roomId t h
    have h1 : StateInv domain (ensureRoom st roomId) := stateInv_ensureRoom h
    refine stateInv_setRoomAndCalc h1 ?_
    intro m hm
    exact roomDisjoint_roomOf h1 roomId m hm
  · intro st roomId ev fe fp h hfresh
    exact stateInv_tryAddReaction h hfresh
  · intro st roomId red h
    exact stateInv_tryRemoveReaction h
  · intro st roomId red h
    exact stateInv_tryRemoveMessage h
  · intro st file h hf
    exact stateInv_load h hf
  · intro st h rid cv hget
    obtain ⟨sb, hsb, rfl⟩ := h.2 rid cv hget
    refine ⟨sb, hsb, ?_, ?_, fun m hm => h.1 rid sb hsb m hm⟩
    · intro c hc
      have hc' : c ∈ sb.messages.map (projectMessage rid domain) :=
        (sortByScoreDesc_perm _).mem_iff.mp hc
      rcases List.mem_map.mp hc' with ⟨m, hm, rfl⟩
      exact ⟨m, hm, rfl, rfl⟩
    · intro m hm
      exact (sortByScoreDesc_perm _).mem_iff.mpr
        (List.mem_map.mpr ⟨m, hm, rfl⟩)

/-- Witness for C6: the invariant holds of the empty initial state and is
carried through a concrete `resetScoreboard` call. -/
theorem C6_invariant_preservation_witness :
    StateInv "example.org" (resetScoreboard "example.org" emptyState "!aud") :=
  (C6_invariant_preservation "example.org" "https://hs.example.org" []).1 emptyState "!aud"
    (stateInv_emptyState "example.org")

theorem pushVote_eventId (b : Bool) (v : String) (m : RoomMessage) :
    (pushVote b v m).eventId = m.eventId := by
  cases b <;> rfl

theorem find?_updateFirst {α : Type} {p : α → Bool} {f : α → α} (l : List α)
    (hpf : ∀ a, p a = true → p (f a) = true) :
    (updateFirst p f l).find? p = (l.find? p).map f := by
  induction l with
  | nil => simp [updateFirst]
  | cons x xs ih =>
    by_cases hp : p x = true
    · rw [updateFirst, if_pos hp, List.find?_cons_of_pos _ (hpf x hp),
        List.find?_cons_of_pos _ hp]
      rfl
    · rw [updateFirst, if_neg hp,
        List.find?_cons_of_neg _ (by simpa using hp),
        List.find?_cons_of_neg _ (by simpa using hp), ih]

/-- C2 counterexample: `tryAddReaction` is not idempotent with respect to the
reaction event id.  Processing the very same reaction event (same `event_id`
`$r1`, same target `$m1`, same 👍 vote) twice yields a different room state
than processing it once: the reactor id is appended to `activeUpvoteIds` a
second time, so the tracked message ends with vote list `[$r1, $r1]` and
score 2 instead of `[$r1]` and score 1. -/
theorem C2_counterexample :
    tryAddReaction "hs" "https://hs" ["!aud"] none none
        (tryAddReaction "hs" "https://hs" ["!aud"] none none
          ⟨[("!aud", ⟨none, [⟨"$m1", "hello", "@alice:hs", none, none, [], []⟩]⟩)], []⟩
          "!aud" ⟨"$r1", some ⟨some "m.annotation", some "👍", some "$m1"⟩⟩)
        "!aud" ⟨"$r1", some ⟨some "m.annotation", some "👍", some "$m1"⟩⟩
      ≠ tryAddReaction "hs" "https://hs" ["!aud"] none none
          ⟨[("!aud", ⟨none, [⟨"$m1", "hello", "@alice:hs", none, none, [], []⟩]⟩)], []⟩
          "!aud" ⟨"$r1", some ⟨some "m.annotation", some "👍", some "$m1"⟩⟩ := by
  decide

/-- C2 (amended): `recordReaction` (`tryAddReaction`) is not idempotent: for a
tracked target, every processing of a reaction event — including a repeat of
one processed before — appends its `event_id` to the matched message's vote
list again, growing the total vote count by exactly one each time.
De-duplication is not attempted; uniqueness of delivered reaction event ids is
an assumption on the transport, not enforced by the operation. -/
theorem C2_amended_append (domain homeserverUrl : String) (auds : List String)
    (fe : Option TargetEvent) (fp : Option Profile) (st : ScoreboardState)
    (roomId : String) (ev : ReactionEvent) (isUp : Bool) (target : String)
    (m : RoomMessage)
    (haud : auds.contains roomId = true)
    (hcl : classifyReaction ev = some (isUp, target))
    (hfind : (roomOf st roomId).messages.find? (fun m' => m'.eventId == target)
      = some m) :
    ∃ sb', getKey (tryAddReaction domain homeserverUrl auds fe fp st roomId ev).byRoom
        roomId = some sb' ∧
      sb'.messages.find? (fun m' => m'.eventId == target)
        = some (pushVote isUp ev.event_id m) ∧
      (pushVote isUp ev.event_id m).activeUpvoteIds.length
          + (pushVote isUp ev.event_id m).activeDownvoteIds.length
        = (m.activeUpvoteIds.length + m.activeDownvoteIds.length) + 1 := by
  have hroom : roomOf (ensureRoom st roomId) roomId = roomOf st roomId :=
    roomOf_ensureRoom st roomId
  have hany : ((roomOf (ensureRoom st roomId) roomId).messages.any
      (fun m' => m'.eventId == target)) = true := by
    rw [hroom]
    exact List.any_eq_true.mpr
      ⟨m, List.mem_of_find?_eq_some hfind, by simpa using List.find?_some hfind⟩
  simp only [tryAddReaction]
  split
  case isFalse hcon => exact absurd haud hcon
  case isTrue =>
    split
    case h_1 heq =>
      rw [hcl] at heq
      exact Option.noConfusion heq
    case h_2 heq =>
      rw [hcl] at heq
      simp only [Option.some.injEq, Prod.mk.injEq] at heq
      obtain ⟨rfl, rfl⟩ := heq
      split
      case isFalse hcon => exact absurd hany hcon
      case isTrue =>
        refine ⟨_, getKey_setKey_self _ _ _, ?_, ?_⟩
        · show (updateFirst (fun m' => m'.eventId == target)
              (pushVote isUp ev.event_id)
              (roomOf (ensureRoom st roomId) roomId).messages).find?
                (fun m' => m'.eventId == target)
            = some (pushVote isUp ev.event_id m)
          rw [find?_updateFirst _ (fun a ha => by rwa [pushVote_eventId]), hroom,
            hfind]
          rfl
        · cases isUp <;> simp [pushVote] <;> omega

/-- Witness for C2 (amended): a concrete repeat reaction appends the id again. -/
theorem C2_amended_append_witness :
    ∃ sb', getKey (tryAddReaction "hs" "https://hs" ["!aud"] none none
        ⟨[("!aud", ⟨none, [⟨"$m1", "hello", "@alice:hs", none, none, ["$r1"], []⟩]⟩)], []⟩
        "!aud" ⟨"$r1", some ⟨some "m.annotation", some "👍", some "$m1"⟩⟩).byRoom
        "!aud" = some sb' ∧
      sb'.messages.find? (fun m' => m'.eventId == "$m1")
        = some (pushVote true "$r1" ⟨"$m1", "hello", "@alice:hs", none, none, ["$r1"], []⟩) ∧
      (pushVote true "$r1"
            (⟨"$m1", "hello", "@alice:hs", none, none, ["$r1"], []⟩ : RoomMessage)).activeUpvoteIds.length
          + (pushVote true "$r1"
            (⟨"$m1", "hello", "@alice:hs", none, none, ["$r1"], []⟩ : RoomMessage)).activeDownvoteIds.length
        = ((["$r1"] : List String).length + ([] : List String).length) + 1 :=
  C2_amended_append "hs" "https://hs" ["!aud"] none none
    ⟨[("!aud", ⟨none, [⟨"$m1", "hello", "@alice:hs", none, none, ["$r1"], []⟩]⟩)], []⟩
    "!aud" ⟨"$r1", some ⟨some "m.annotation", some "👍", some "$m1"⟩⟩ true "$m1"
    ⟨"$m1", "hello", "@alice:hs", none, none, ["$r1"], []⟩
    (by decide) (by decide) (by decide)

theorem ensureRoom_byRoomCached (st : ScoreboardState) (roomId : String) :
    (ensureRoom st roomId).byRoomCached = st.byRoomCached := by
  unfold ensureRoom
  split <;> rfl

theorem getKey_ensureRoom_ne (st : ScoreboardState) {roomId r : String}
    (h : r ≠ roomId) :
    getKey (ensureRoom st roomId).byRoom r = getKey st.byRoom r := by
  unfold ensureRoom
  split
  · rfl
  · exact getKey_setKey_ne _ _ h

theorem pushVote_senderName (b : Bool) (v : String) (m : RoomMessage) :
    (pushVote b v m).senderName = m.senderName := by
  cases b <;> rfl

theorem pushVote_senderHttpUrl (b : Bool) (v : String) (m : RoomMessage) :
    (pushVote b v m).senderHttpUrl = m.senderHttpUrl := by
  cases b <;> rfl

/-- C9 counterexample: the claim requires a non-empty target event id, but the
code only checks `typeof relation['event_id'] === 'string'`.  A reaction whose
annotation carries the empty string "" as its target id is accepted by the
classification stage (and so proceeds to the locked section) even though the
id is empty. -/
theorem C9_counterexample :
    classifyReaction ⟨"$react", some ⟨some "m.annotation", some "👍", some ""⟩⟩
      = some (true, "") ∧ ("" : String).length = 0 := by
  decide

/-- C9 (amended): classification accepts an event only if it carries an
annotation-type relation, a target event id of string type (which may be the
empty string — string-ness, not non-emptiness, is checked), and a reaction
key equal to one of the two vote emoji under lenient Unicode-variant equality;
every event failing these tests is dropped before the engine lock would be
taken (its action trace is empty) and leaves the whole state unchanged. -/
theorem C9_classification (domain homeserverUrl : String) (auds : List String) :
    (∀ ev isUp target, classifyReaction ev = some (isUp, target) →
      ∃ rel, ev.relation = some rel ∧ rel.rel_type = some "m.annotation" ∧
        rel.event_id = some target ∧
        (keyIsVariant thumbsUp rel.key = true ∨ keyIsVariant thumbsDown rel.key = true) ∧
        isUp = keyIsVariant thumbsUp rel.key) ∧
    (∀ ev st roomId fe fp, classifyReaction ev = none →
      tryAddReaction domain homeserverUrl auds fe fp st roomId ev = st ∧
      addReactionTrace ev = []) := by
  constructor
  · intro ev isUp target h
    cases hrel : ev.relation with
    | none => simp [classifyReaction, hrel] at h
    | some rel =>
      simp only [classifyReaction, hrel] at h
      by_cases h1 : rel.rel_type = some "m.annotation"
      swap
      · rw [if_neg h1] at h
        exact Option.noConfusion h
      rw [if_pos h1] at h
      by_cases h2 : (keyIsVariant thumbsUp rel.key || keyIsVariant thumbsDown rel.key) = true
      swap
      · rw [if_neg h2] at h
        exact Option.noConfusion h
      rw [if_pos h2] at h
      cases hid : rel.event_id with
      | none => simp [hid] at h
      | some t =>
        simp only [hid, Option.some.injEq, Prod.mk.injEq] at h
        obtain ⟨hup, rfl⟩ := h
        exact ⟨rel, rfl, h1, hid, by simpa using h2, hup.symm⟩
  · intro ev st roomId fe fp hnone
    constructor
    · simp [tryAddReaction, hnone]
    · simp [addReactionTrace, hnone]

/-- Witness for C9 (amended): a reaction event with no relation at all is
dropped with the state unchanged and an empty action trace. -/
theorem C9_classification_witness :
    tryAddReaction "hs" "https://hs" ["!aud"] none none emptyState "!aud"
        ⟨"$react", none⟩ = emptyState ∧
    addReactionTrace ⟨"$react", none⟩ = [] :=
  (C9_classification "hs" "https://hs" ["!aud"]).2 ⟨"$react", none⟩ emptyState
    "!aud" none none (by decide)

/-- C8 counterexample: the claim states that a failed message fetch leaves the
room state unchanged, but the `if (!scoreboard)` step has already created —
and keeps — an empty entry for a previously untracked room before the fetch
outcome is inspected: from the empty engine state, a dropped reaction leaves
`byRoom` holding a fresh empty room entry. -/
theorem C8_counterexample :
    tryAddReaction "hs" "https://hs" ["!aud"] none none emptyState "!aud"
        ⟨"$react", some ⟨some "m.annotation", some "👍", some "$gone"⟩⟩
      ≠ emptyState := by
  decide

/-- C8 (amended): auxiliary-fetch failures during `tryAddReaction` degrade the
operation instead of erroring.  A failed fetch of the reacted-to message (for
an untracked target) drops the reaction: no message is tracked, the room's
message list and every cached view are unchanged — though an empty RoomState
entry is created when the room was previously untracked.  A failed profile
fetch proceeds and tracks the message without the optional display name and
avatar URL.  Both outcomes are ordinary results of the total transition
function; neither is surfaced as an error. -/
theorem C8_degrade (domain homeserverUrl : String) (auds : List String)
    (st : ScoreboardState) (roomId : String) (ev : ReactionEvent) (isUp : Bool)
    (target : String)
    (haud : auds.contains roomId = true)
    (hcl : classifyReaction ev = some (isUp, target))
    (huntracked : ((roomOf st roomId).messages.any (fun m => m.eventId == target))
      = false) :
    (∀ fp, tryAddReaction domain homeserverUrl auds none fp st roomId ev
        = ensureRoom st roomId ∧
      (ensureRoom st roomId).byRoomCached = st.byRoomCached ∧
      (roomOf (ensureRoom st roomId) roomId).messages = (roomOf st roomId).messages) ∧
    (∀ tev body, tev.type = "m.room.message" → tev.msgtype = some "m.text" →
      tev.body = some body →
      ∃ m', getKey (tryAddReaction domain homeserverUrl auds (some tev) none st
            roomId ev).byRoom roomId
          = some ⟨(roomOf st roomId).qaStartTime, (roomOf st roomId).messages ++ [m']⟩ ∧
        m'.senderName = none ∧ m'.senderHttpUrl = none ∧ m'.eventId = target) := by
  have hroom : roomOf (ensureRoom st roomId) roomId = roomOf st roomId :=
    roomOf_ensureRoom st roomId
  have hany : ((roomOf (ensureRoom st roomId) roomId).messages.any
      (fun m => m.eventId == target)) = true → False := by
    rw [hroom, huntracked]
    simp
  constructor
  · intro fp
    refine ⟨?_, ensureRoom_byRoomCached st roomId, by rw [hroom]⟩
    simp only [tryAddReaction]
    split
    case isFalse hcon => exact absurd haud hcon
    case isTrue =>
      split
      case h_1 heq =>
        rw [hcl] at heq
        exact Option.noConfusion heq
      case h_2 heq =>
        rw [hcl] at heq
        simp only [Option.some.injEq, Prod.mk.injEq] at heq
        obtain ⟨rfl, rfl⟩ := heq
        split
        case isTrue hcon => exact absurd hcon hany
        case isFalse => rfl
  · intro tev body ht1 ht2 hb
    simp only [tryAddReaction]
    split
    case isFalse hcon => exact absurd haud hcon
    case isTrue =>
      split
      case h_1 heq =>
        rw [hcl] at heq
        exact Option.noConfusion heq
      case h_2 heq =>
        rw [hcl] at heq
        simp only [Option.some.injEq, Prod.mk.injEq] at heq
        obtain ⟨rfl, rfl⟩ := heq
        split
        case isTrue hcon => exact absurd hcon hany
        case isFalse =>
          split
          case h_1 heqf =>
            rw [hb] at heqf
            exact Option.noConfusion heqf
          case h_2 heqf =>
            rw [hb] at heqf
            simp only [Option.some.injEq] at heqf
            subst heqf
            refine ⟨pushVote isUp ev.event_id
              ⟨target, body, tev.sender, none, none, [], []⟩, ?_, ?_, ?_, ?_⟩
            · simp only [setRoomAndCalc]
              rw [getKey_setKey_self, hroom]
              rfl
            · rw [pushVote_senderName]
            · rw [pushVote_senderHttpUrl]
            · rw [pushVote_eventId]

/-- Witness for C8 (amended): from a concrete tracked room, a reaction to an
untracked target with a failed message fetch degrades to the ensure-room
no-op. -/
theorem C8_degrade_witness :
    tryAddReaction "hs" "https://hs" ["!aud"] none none emptyState "!aud"
        ⟨"$react", some ⟨some "m.annotation", some "👎", some "$gone"⟩⟩
      = ensureRoom emptyState "!aud" ∧
    (ensureRoom emptyState "!aud").byRoomCached = emptyState.byRoomCached ∧
    (roomOf (ensureRoom emptyState "!aud") "!aud").messages
      = (roomOf emptyState "!aud").messages :=
  ((C8_degrade "hs" "https://hs" ["!aud"] emptyState "!aud"
    ⟨"$react", some ⟨some "m.annotation", some "👎", some "$gone"⟩⟩ false "$gone"
    (by decide) (by decide) (by decide)).1 none)

/-- C10: `showQACountdown` changes only the target room's `qaStartTime`: the
target room afterwards holds the requested timestamp with its message list
unchanged (an empty list exactly when the room was previously untracked,
since `roomOf` of an untracked room is the fresh empty room), and both the
room states and the cached views of every other room are untouched. -/
theorem C10_showQACountdown_frame (domain : String) (st : ScoreboardState)
    (roomId : String) (t : Int) :
    getKey (showQACountdown domain st roomId t).byRoom roomId
        = some ⟨some t, (roomOf st roomId).messages⟩ ∧
    ∀ r, r ≠ roomId →
      getKey (showQACountdown domain st roomId t).byRoom r = getKey st.byRoom r ∧
      getKey (showQACountdown domain st roomId t).byRoomCached r
        = getKey st.byRoomCached r := by
  constructor
  · simp only [showQACountdown, setRoomAndCalc]
    rw [getKey_setKey_self, roomOf_ensureRoom]
  · intro r hr
    constructor
    · simp only [showQACountdown, setRoomAndCalc]
      rw [getKey_setKey_ne _ _ hr, getKey_ensureRoom_ne st hr]
    · simp only [showQACountdown, setRoomAndCalc]
      rw [getKey_setKey_ne _ _ hr, ensureRoom_byRoomCached]

/-- Witness for C10: a concrete countdown update on a state with two tracked
rooms leaves the other room's state and view untouched. -/
theorem C10_showQACountdown_frame_witness :
    getKey (showQACountdown "hs"
        ⟨[("!a", ⟨none, []⟩), ("!b", ⟨some 5, []⟩)], []⟩ "!a" 77).byRoom "!a"
      = some ⟨some 77, (roomOf (⟨[("!a", ⟨none, []⟩), ("!b", ⟨some 5, []⟩)], []⟩ :
          ScoreboardState) "!a").messages ⟩ ∧
    getKey (showQACountdown "hs"
        ⟨[("!a", ⟨none, []⟩), ("!b", ⟨some 5, []⟩)], []⟩ "!a" 77).byRoom "!b"
      = getKey (⟨[("!a", ⟨none, []⟩), ("!b", ⟨some 5, []⟩)], []⟩ :
          ScoreboardState).byRoom "!b" ∧
    getKey (showQACountdown "hs"
        ⟨[("!a", ⟨none, []⟩), ("!b", ⟨some 5, []⟩)], []⟩ "!a" 77).byRoomCached "!b"
      = getKey (⟨[("!a", ⟨none, []⟩), ("!b", ⟨some 5, []⟩)], []⟩ :
          ScoreboardState).byRoomCached "!b" :=
  ⟨(C10_showQACountdown_frame "hs" ⟨[("!a", ⟨none, []⟩), ("!b", ⟨some 5, []⟩)], []⟩
      "!a" 77).1,
   ((C10_showQACountdown_frame "hs" ⟨[("!a", ⟨none, []⟩), ("!b", ⟨some 5, []⟩)], []⟩
      "!a" 77).2 "!b" (by decide)).1,
   ((C10_showQACountdown_frame "hs" ⟨[("!a", ⟨none, []⟩), ("!b", ⟨some 5, []⟩)], []⟩
      "!a" 77).2 "!b" (by decide)).2⟩

theorem getKey_append_right {α : Type} (m₁ m₂ : List (String × α)) (k : String)
    (h : getKey m₁ k = none) : getKey (m₁ ++ m₂) k = getKey m₂ k := by
  induction m₁ with
  | nil => rfl
  | cons p rest ih =>
    by_cases hp : p.1 = k
    · simp [getKey, hp] at h
    · simp only [getKey, beq_iff_eq, if_neg hp] at h
      simp only [List.cons_append, getKey, beq_iff_eq, if_neg hp]
      exact ih h

theorem loadRooms_cons (domain : String) (q : String × RoomScoreboard)
    (rest : List (String × RoomScoreboard)) (st : ScoreboardState) :
    loadRooms domain (q :: rest) st
      = loadRooms domain rest (setRoomAndCalc domain st q.1 q.2) := rfl

theorem loadRooms_byRoom (domain : String) (rooms : List (String × RoomScoreboard))
    (st : ScoreboardState)
    (hnd : (rooms.map Prod.fst).Nodup)
    (habs : ∀ k ∈ rooms.map Prod.fst, getKey st.byRoom k = none) :
    (loadRooms domain rooms st).byRoom = st.byRoom ++ rooms := by
  induction rooms generalizing st with
  | nil => simp [loadRooms]
  | cons q rest ih =>
    rcases q with ⟨rid, sb⟩
    rw [List.map_cons] at hnd
    obtain ⟨hnotin, hnd'⟩ := List.nodup_cons.mp hnd
    have habs0 : getKey st.byRoom rid = none := habs rid (by simp)
    have hstep : (setRoomAndCalc domain st rid sb).byRoom = st.byRoom ++ [(rid, sb)] := by
      simp only [setRoomAndCalc]
      exact setKey_absent _ _ habs0
    have habs' : ∀ k ∈ rest.map Prod.fst,
        getKey (setRoomAndCalc domain st rid sb).byRoom k = none := by
      intro k hk
      have hkrid : k ≠ rid := fun hkr => hnotin (hkr ▸ hk)
      rw [hstep, getKey_append_right _ _ _ (habs k (by simp [hk]))]
      simp [getKey, Ne.symm hkrid]
    rw [loadRooms_cons, ih _ hnd' habs', hstep]
    simp

theorem loadRooms_byRoomCached (domain : String)
    (rooms : List (String × RoomScoreboard)) (st : ScoreboardState)
    (hnd : (rooms.map Prod.fst).Nodup) :
    (∀ k, k ∉ rooms.map Prod.fst →
      getKey (loadRooms domain rooms st).byRoomCached k = getKey st.byRoomCached k) ∧
    (∀ p ∈ rooms, getKey (loadRooms domain rooms st).byRoomCached p.1
      = some (calculateRoom p.1 domain p.2)) := by
  induction rooms generalizing st with
  | nil => exact ⟨fun k _ => rfl, fun p hp => absurd hp (List.not_mem_nil p)⟩
  | cons q rest ih =>
    rcases q with ⟨rid, sb⟩
    rw [List.map_cons] at hnd
    obtain ⟨hnotin, hnd'⟩ := List.nodup_cons.mp hnd
    constructor
    · intro k hk
      simp only [List.map_cons, List.mem_cons, not_or] at hk
      obtain ⟨hk1, hk2⟩ := hk
      rw [loadRooms_cons, (ih _ hnd').1 k hk2]
      simp only [setRoomAndCalc]
      exact getKey_setKey_ne _ _ hk1
    · intro p hp
      rcases List.mem_cons.mp hp with rfl | hp
      · rw [loadRooms_cons, (ih _ hnd').1 _ hnotin]
        simp only [setRoomAndCalc]
        exact getKey_setKey_self _ _ _
      · rw [loadRooms_cons]
        exact (ih _ hnd').2 p hp

/-- C5: `load()` error tolerance.  A missing snapshot file is silently treated
as no prior state; invalid JSON is logged and treated as no prior state; any
other read error is logged and treated as no prior state; a version mismatch
is logged and treated as no prior state — in every failure case the engine
state is exactly the pre-load state and `load` returns normally, never
aborting startup.  On a successful load of a current-version snapshot, every
loaded room's ranking view is recomputed (`calculateRoom` of the loaded room
state) before `load` returns. -/
theorem C5_load_tolerant (domain : String) :
    (∀ st, load domain LoadFile.missing st = (st, [])) ∧
    (∀ st, load domain LoadFile.malformed st = (st, [LogEntry.warnInvalidJson])) ∧
    (∀ st, load domain LoadFile.unreadable st = (st, [LogEntry.warnLoadFailed])) ∧
    (∀ st j, j.version ≠ jsonFormatVersion →
      load domain (LoadFile.wellFormed j) st
        = (st, [LogEntry.warnBadVersion j.version])) ∧
    (∀ st j, j.version = jsonFormatVersion → (j.rooms.map Prod.fst).Nodup →
      ∀ p ∈ j.rooms,
        getKey (load domain (LoadFile.wellFormed j) st).1.byRoomCached p.1
          = some (calculateRoom p.1 domain p.2)) := by
  refine ⟨fun st => rfl, fun st => rfl, fun st => rfl, ?_, ?_⟩
  · intro st j hv
    simp [load, hv]
  · intro st j hv hnd p hp
    simp only [load, if_pos hv]
    exact (loadRooms_byRoomCached domain j.rooms st hnd).2 p hp

/-- Witness for C5: a wrong-version snapshot is logged and ignored, and a
concrete current-version snapshot has its room's view recomputed. -/
theorem C5_load_tolerant_witness :
    load "hs" (LoadFile.wellFormed ⟨2, []⟩) emptyState
      = (emptyState, [LogEntry.warnBadVersion 2]) ∧
    getKey (load "hs" (LoadFile.wellFormed ⟨1, [("!a", ⟨none, []⟩)]⟩)
        emptyState).1.byRoomCached "!a"
      = some (calculateRoom "!a" "hs" ⟨none, []⟩) :=
  ⟨(C5_load_tolerant "hs").2.2.2.1 emptyState ⟨2, []⟩ (by decide),
   (C5_load_tolerant "hs").2.2.2.2 emptyState ⟨1, [("!a", ⟨none, []⟩)]⟩ (by decide)
     (by decide) ("!a", ⟨none, []⟩) (by decide)⟩

/-- C7: round trip.  `save()` writes the complete snapshot
`{version, rooms := byRoom}`; reading the resulting canonical file back and
`load()`-ing it into a fresh engine reproduces exactly the saved room table —
the same rooms with the same countdowns, the same tracked messages in the
same tracking order and identical vote-id lists — with no warning logged, and
every room's ranking view is recomputed from its (identical) room state, so
the recomputed rankings, including tie-break order, are identical. -/
theorem C7_save_load_roundtrip (domain : String) (st : ScoreboardState)
    (hnd : (st.byRoom.map Prod.fst).Nodup) :
    (load domain (parseFile (saveResult st).canonical) emptyState).1.byRoom
        = st.byRoom ∧
    (load domain (parseFile (saveResult st).canonical) emptyState).2 = [] ∧
    ∀ p ∈ st.byRoom,
      getKey (load domain
          (parseFile (saveResult st).canonical) emptyState).1.byRoomCached p.1
        = some (calculateRoom p.1 domain p.2) := by
  have hparse : parseFile (saveResult st).canonical
      = LoadFile.wellFormed ⟨jsonFormatVersion, st.byRoom⟩ := rfl
  rw [hparse]
  simp only [load, eq_self_iff_true, if_true]
  refine ⟨?_, trivial, ?_⟩
  · rw [loadRooms_byRoom domain st.byRoom emptyState hnd (fun k _ => rfl)]
    rfl
  · intro p hp
    exact (loadRooms_byRoomCached domain st.byRoom emptyState hnd).2 p hp

/-- Witness for C7: a concrete two-room state (one with a voted message)
survives the save/load round trip byte-for-byte, caches recomputed. -/
theorem C7_save_load_roundtrip_witness :
    (load "hs" (parseFile (saveResult
        ⟨[("!a", ⟨some 9, [⟨"$m", "q", "@u:hs", none, none, ["$r1"], []⟩]⟩),
          ("!b", ⟨none, []⟩)], []⟩).canonical) emptyState).1.byRoom
      = [("!a", ⟨some 9, [⟨"$m", "q", "@u:hs", none, none, ["$r1"], []⟩]⟩),
         ("!b", ⟨none, []⟩)] ∧
    getKey (load "hs" (parseFile (saveResult
        ⟨[("!a", ⟨some 9, [⟨"$m", "q", "@u:hs", none, none, ["$r1"], []⟩]⟩),
          ("!b", ⟨none, []⟩)], []⟩).canonical) emptyState).1.byRoomCached "!b"
      = some (calculateRoom "!b" "hs" ⟨none, []⟩) :=
  ⟨(C7_save_load_roundtrip "hs"
      ⟨[("!a", ⟨some 9, [⟨"$m", "q", "@u:hs", none, none, ["$r1"], []⟩]⟩),
        ("!b", ⟨none, []⟩)], []⟩ (by decide)).1,
   (C7_save_load_roundtrip "hs"
      ⟨[("!a", ⟨some 9, [⟨"$m", "q", "@u:hs", none, none, ["$r1"], []⟩]⟩),
        ("!b", ⟨none, []⟩)], []⟩ (by decide)).2.2 ("!b", ⟨none, []⟩) (by decide)⟩

/-- C4: crash-safe atomic save.  `save()` serializes the entire snapshot
`{version, rooms}` with every room of `byRoom`, writes it to the temporary
path and atomically renames it onto the canonical path.  At every
intermediate filesystem state — including a crash mid-write of the temporary
file — the canonical path holds either the complete previous content or the
complete new snapshot, never a torn document; the final state holds the
complete new snapshot. -/
theorem C4_save_atomic (fs : Fs) (st : ScoreboardState)
    (h : fs.canonical ≠ FileData.torn) :
    (∀ fs' ∈ saveSteps fs st,
      fs'.canonical = fs.canonical
        ∨ fs'.canonical = FileData.complete (encodeSnapshot st)) ∧
    (∀ fs' ∈ saveSteps fs st, fs'.canonical ≠ FileData.torn) ∧
    saveResult st ∈ saveSteps fs st ∧
    (saveResult st).canonical = FileData.complete (encodeSnapshot st) ∧
    (encodeSnapshot st).rooms = st.byRoom ∧
    (encodeSnapshot st).version = jsonFormatVersion := by
  refine ⟨?_, ?_, ?_, rfl, rfl, rfl⟩
  · intro fs' hf
    simp only [saveSteps, List.mem_cons, List.not_mem_nil, or_false] at hf
    rcases hf with rfl | rfl | rfl | rfl
    · exact Or.inl rfl
    · exact Or.inl rfl
    · exact Or.inl rfl
    · exact Or.inr rfl
  · intro fs' hf
    simp only [saveSteps, List.mem_cons, List.not_mem_nil, or_false] at hf
    rcases hf with rfl | rfl | rfl | rfl
    · exact h
    · exact h
    · exact h
    · intro hcon
      exact FileData.noConfusion hcon
  · simp [saveSteps, saveResult]

/-- Witness for C4: from an initially absent canonical file, the crash point
right after the torn temporary write still leaves the canonical path holding
its previous (non-torn) content. -/
theorem C4_save_atomic_witness :
    ({ canonical := FileData.absent, temp := FileData.torn } : Fs).canonical
        = (⟨FileData.absent, FileData.absent⟩ : Fs).canonical
      ∨ ({ canonical := FileData.absent, temp := FileData.torn } : Fs).canonical
        = FileData.complete (encodeSnapshot emptyState) :=
  (C4_save_atomic ⟨FileData.absent, FileData.absent⟩ emptyState (by decide)).1
    ⟨FileData.absent, FileData.torn⟩ (by decide)

/-- C3 counterexample: the claim says every mutating operation performs its
read-modify-write, the ranking recomputation AND the snapshot persistence all
while holding the engine lock acquired for the mutation.  In the code every
mutating operation releases the lock in its `finally` block BEFORE calling
`save()`, which re-acquires the lock: on the concrete action trace of
`resetScoreboard` a persist happens, but not under the lock acquired for the
mutation — a `release` intervenes — refuting the claim. -/
theorem C3_counterexample :
    resetScoreboardTrace.contains EngineAction.persistWrite = true ∧
    persistUnderSameLock resetScoreboardTrace = false := by
  decide

/-- C3 (amended): every mutating operation performs its read-modify-write and
ranking recomputation inside one critical section of the single engine lock,
releases the lock, and then `save()` persists the full snapshot inside a
second critical section of the same lock.  Each trace respects the lock
discipline, so critical sections — and hence mutations and persists — are
totally ordered and a persist never interleaves with an in-flight mutation.
But a mutation and its own persist are not atomic: a lock-respecting
interleaving of two operations exists in which the second operation's whole
mutation executes between the first operation's mutation and its persist. -/
theorem C3_two_critical_sections :
    resetScoreboardTrace
        = criticalSection [EngineAction.mutateRoom, EngineAction.recompute]
          ++ criticalSection [EngineAction.persistWrite] ∧
    showQACountdownTrace = resetScoreboardTrace ∧
    tryAddReactionTrace = resetScoreboardTrace ∧
    tryRemoveReactionTrace = resetScoreboardTrace ∧
    tryRemoveMessageTrace = resetScoreboardTrace ∧
    persistUnderSameLock mutatingOpTrace = false ∧
    lockValid none (mutatingOpTrace.map (fun a => (0, a))) = true ∧
    lockValid none interleavedRun = true ∧
    projThread 0 interleavedRun = tryAddReactionTrace ∧
    projThread 1 interleavedRun = tryAddReactionTrace ∧
    ((interleavedRun.dropWhile
        (fun p => p != (0, EngineAction.mutateRoom))).takeWhile
        (fun p => p != (0, EngineAction.persistWrite))).contains
      (1, EngineAction.mutateRoom) = true := by
  decide

end ConferenceBot
